import Mathlib

/-!
Verification development for the `inferas` repository.

The repository has two leaf components:
* `inferas/web.py` — a synchronous scraper (`scraper.getweb` retry loop,
  query helpers guarded by `scraper._ensure_soup`) and HTML `injection` helpers;
* the `re` module — process metadata (`re.get_pid`), a streaming SHA-256 of a
  file (`re._compute_sha256`) and a printable-string scanner
  (`re._extract_strings`).

Effectful third-party boundaries (`requests.get`, file reads, `psutil` field
lookups, HTML parsing) are modelled as explicit inputs: the per-attempt network
outcome is a function from the attempt index to a result, a file read is an
`Except`/`Option` of the byte list, and each psutil field getter is an `Except`
value.  Everything after those boundaries is translated statement by statement
from the Python source.
-/

/-! ## scraper.getweb (web.py lines 27-54)

State mutated by `getweb`: `self.last_html`, `self.last_url`, `self._soup`.
The parsed soup is modelled as the parse function applied to the HTML string. -/

structure ScraperState where
  last_html : Option String
  last_url : Option String
  soup : Option String
  deriving Repr, DecidableEq

/-- Trace of one `getweb` call: result (`Except.error none` models the
`raise last_exc` fallback firing with `last_exc = None`, which happens only
when `max_retries = 0`), resulting instance state, number of network attempts
performed, and the list of back-off sleep durations in order. -/
structure GetwebResult (ε : Type) where
  result : Except (Option ε) String
  state : ScraperState
  attempts : Nat
  sleeps : List Nat
  deriving Repr

/-- The `for attempt in range(self.max_retries)` loop of `getweb`
(web.py lines 36-54).  `outs` is the list of outcomes of the remaining network
attempts (index `a` first); `a` is the current 0-based attempt index;
`lastExc` is the running `last_exc`.  A successful attempt stores the HTML,
URL and parsed soup and returns; a failing attempt re-raises when it is the
last one (`attempt == self.max_retries - 1`, i.e. no outcomes remain), and
otherwise sleeps `2 ** attempt` and retries. -/
def getwebLoop (link : String) (parse : String → String) (st : ScraperState)
    {ε : Type} : Nat → Option ε → List (Except ε String) → GetwebResult ε
  | _, lastExc, [] => ⟨Except.error lastExc, st, 0, []⟩
  | _, _, Except.ok html :: _ =>
      ⟨Except.ok html,
       { last_html := some html, last_url := some link, soup := some (parse html) },
       1, []⟩
  | a, _, Except.error e :: rest =>
      if rest.isEmpty then
        ⟨Except.error (some e), st, 1, []⟩
      else
        let r := getwebLoop link parse st (a + 1) (some e) rest
        ⟨r.result, r.state, r.attempts + 1, 2 ^ a :: r.sleeps⟩

/-- `scraper.getweb` (web.py lines 27-54).  `fetch i` is the outcome of the
`i`-th network attempt (`requests.get` + `raise_for_status` + `.text` as one
fallible step); `jitter` is the duration drawn by `random.uniform` for the
politeness sleep.  Returns the loop trace; the politeness sleep is reported
separately from the back-off sleeps. -/
structure GetwebCall (ε : Type) where
  polite : Option Nat
  run : GetwebResult ε

def getweb (link : String) (parse : String → String) (st : ScraperState)
    (max_retries : Nat) {ε : Type} (fetch : Nat → Except ε String)
    (respect_delay : Bool) (jitter : Nat) : GetwebCall ε :=
  { polite := if respect_delay then some jitter else none
    run := getwebLoop link parse st 0 none ((List.range max_retries).map fetch) }

/-! ## re._extract_strings (core_test.py lines 127-155)

The `open(path, "rb").read()` is modelled as an `Option (List Nat)` input:
`none` when the open/read raises (the `except` branch returns the empty
result list), `some data` otherwise.  The scan follows the Python loop
character by character: `c = chr(b)`, the printable test `" " <= c <= "~"`,
the accumulator `printable`, the growing `results`, the cap break, and the
final tail emission. -/

def printableChar (c : Char) : Bool := ' ' ≤ c && c ≤ '~'

/-- The `for b in data` loop plus the final-tail emission of
`re._extract_strings`. -/
def scanLoop (min_len max_results : Nat) :
    List Nat → List Char → List String → List String
  | [], printable, results =>
      if results.length < max_results && min_len ≤ printable.length then
        results ++ [String.mk printable]
      else results
  | b :: rest, printable, results =>
      let c := Char.ofNat b
      if printableChar c then
        scanLoop min_len max_results rest (printable ++ [c]) results
      else
        if min_len ≤ printable.length then
          let results2 := results ++ [String.mk printable]
          if max_results ≤ results2.length then results2
          else scanLoop min_len max_results rest [] results2
        else scanLoop min_len max_results rest [] results

def _extract_strings (readFile : Option (List Nat))
    (min_len max_results : Nat) : List String :=
  match readFile with
  | none => []
  | some data => scanLoop min_len max_results data [] []

/-- Reference definition, from the spec: the maximal runs of consecutive
printable-ASCII bytes of the buffer, in left-to-right order (`acc` is the
run currently being accumulated). -/
def maximalRunsAux : List Nat → List Char → List (List Char)
  | [], acc => if acc.isEmpty then [] else [acc]
  | b :: rest, acc =>
      let c := Char.ofNat b
      if printableChar c then maximalRunsAux rest (acc ++ [c])
      else if acc.isEmpty then maximalRunsAux rest []
      else acc :: maximalRunsAux rest []

def maximalRuns (data : List Nat) : List (List Char) := maximalRunsAux data []

/-- Reference definition, from the spec: the qualifying runs are the maximal
printable runs of length at least `min_len`. -/
def qualifyingRuns (data : List Nat) (min_len : Nat) : List (List Char) :=
  (maximalRuns data).filter (fun r => min_len ≤ r.length)

/-! ## SHA-256 (`hashlib.sha256`), per FIPS 180-4.

`re._compute_sha256` feeds file chunks into a `hashlib.sha256` object and
returns `hexdigest()`.  The incremental hash object is functionally the
SHA-256 of the concatenation of all bytes passed to `update`, so the model
collects the absorbed bytes of the read loop and applies SHA-256 to them. -/

def w32 (x : Nat) : Nat := x % 4294967296

def w8 (x : Nat) : Nat := x % 256

def rotr32 (n x : Nat) : Nat := w32 ((x >>> n) ||| (x <<< (32 - n)))

def xor3 (a b c : Nat) : Nat := (a ^^^ b) ^^^ c

def bsig0 (x : Nat) : Nat := xor3 (rotr32 2 x) (rotr32 13 x) (rotr32 22 x)

def bsig1 (x : Nat) : Nat := xor3 (rotr32 6 x) (rotr32 11 x) (rotr32 25 x)

def ssig0 (x : Nat) : Nat := xor3 (rotr32 7 x) (rotr32 18 x) (x >>> 3)

def ssig1 (x : Nat) : Nat := xor3 (rotr32 17 x) (rotr32 19 x) (x >>> 10)

def ch32 (x y z : Nat) : Nat := (x &&& y) ^^^ ((x ^^^ 0xffffffff) &&& z)

def maj32 (x y z : Nat) : Nat := xor3 (x &&& y) (x &&& z) (y &&& z)

def sha256K : List Nat :=
  [1116352408, 1899447441, 3049323471, 3921009573, 961987163, 1508970993,
   2453635748, 2870763221, 3624381080, 310598401, 607225278, 1426881987,
   1925078388, 2162078206, 2614888103, 3248222580, 3835390401, 4022224774,
   264347078, 604807628, 770255983, 1249150122, 1555081692, 1996064986,
   2554220882, 2821834349, 2952996808, 3210313671, 3336571891, 3584528711,
   113926993, 338241895, 666307205, 773529912, 1294757372, 1396182291,
   1695183700, 1986661051, 2177026350, 2456956037, 2730485921, 2820302411,
   3259730800, 3345764771, 3516065817, 3600352804, 4094571909, 275423344,
   430227734, 506948616, 659060556, 883997877, 958139571, 1322822218,
   1537002063, 1747873779, 1955562222, 2024104815, 2227730452, 2361852424,
   2428436474, 2756734187, 3204031479, 3329325298]

/-- Message padding: append `0x80`, zeros to 56 mod 64, then the bit length
as 8 big-endian bytes. -/
def sha256Pad (msg : List Nat) : List Nat :=
  let padLen := (64 - ((msg.length + 9) % 64)) % 64
  let bits := 8 * msg.length
  msg ++ 0x80 :: List.replicate padLen 0 ++
    [w8 (bits >>> 56), w8 (bits >>> 48), w8 (bits >>> 40), w8 (bits >>> 32),
     w8 (bits >>> 24), w8 (bits >>> 16), w8 (bits >>> 8), w8 bits]

/-- Split the padded message into 64-byte blocks. -/
def sha256Blocks (l : List Nat) : List (List Nat) :=
  if h : l.isEmpty then [] else l.take 64 :: sha256Blocks (l.drop 64)
termination_by l.length
decreasing_by
  have h2 : ¬(l = []) := by
    simpa [List.isEmpty_iff] using h
  have h3 : 0 < l.length := List.length_pos.mpr h2
  simp only [List.length_drop]
  omega

def word32At (blk : List Nat) (i : Nat) : Nat :=
  ((blk.getD (4 * i) 0) <<< 24) ||| ((blk.getD (4 * i + 1) 0) <<< 16) |||
    ((blk.getD (4 * i + 2) 0) <<< 8) ||| (blk.getD (4 * i + 3) 0)

def sha256InitW (blk : List Nat) : List Nat := (List.range 16).map (word32At blk)

/-- Message-schedule extension: repeat `n` times
`W[t] = σ1(W[t-2]) + W[t-7] + σ0(W[t-15]) + W[t-16]  (mod 2^32)`. -/
def sha256ExtendW : Nat → List Nat → List Nat
  | 0, w => w
  | n + 1, w =>
      let t := w.length
      sha256ExtendW n (w ++
        [w32 (ssig1 (w.getD (t - 2) 0) + w.getD (t - 7) 0 +
              ssig0 (w.getD (t - 15) 0) + w.getD (t - 16) 0)])

def sha256Schedule (blk : List Nat) : List Nat := sha256ExtendW 48 (sha256InitW blk)

structure Sha256State where
  h0 : Nat
  h1 : Nat
  h2 : Nat
  h3 : Nat
  h4 : Nat
  h5 : Nat
  h6 : Nat
  h7 : Nat
  deriving Repr, DecidableEq

def sha256InitState : Sha256State :=
  ⟨1779033703, 3144134277, 1013904242, 2773480762,
   1359893119, 2600822924, 528734635, 1541459225⟩

def sha256Round (s : Sha256State) (k w : Nat) : Sha256State :=
  let t1 := w32 (s.h7 + bsig1 s.h4 + ch32 s.h4 s.h5 s.h6 + k + w)
  let t2 := w32 (bsig0 s.h0 + maj32 s.h0 s.h1 s.h2)
  ⟨w32 (t1 + t2), s.h0, s.h1, s.h2, w32 (s.h3 + t1), s.h4, s.h5, s.h6⟩

def sha256Compress (s : Sha256State) (blk : List Nat) : Sha256State :=
  let r := (List.zip sha256K (sha256Schedule blk)).foldl
    (fun acc kw => sha256Round acc kw.1 kw.2) s
  ⟨w32 (s.h0 + r.h0), w32 (s.h1 + r.h1), w32 (s.h2 + r.h2), w32 (s.h3 + r.h3),
   w32 (s.h4 + r.h4), w32 (s.h5 + r.h5), w32 (s.h6 + r.h6), w32 (s.h7 + r.h7)⟩

def sha256Words (msg : List Nat) : Sha256State :=
  (sha256Blocks (sha256Pad msg)).foldl sha256Compress sha256InitState

def hexAlphabet : List Char := "0123456789abcdef".toList

def hexDigit (n : Nat) : Char := hexAlphabet.getD n '0'

def hexWord32 (x : Nat) : List Char :=
  (List.range 8).map (fun i => hexDigit ((x >>> (28 - 4 * i)) % 16))

/-- `hashlib.sha256(msg).hexdigest()`. -/
def sha256hex (msg : List Nat) : String :=
  let s := sha256Words msg
  String.mk (hexWord32 s.h0 ++ hexWord32 s.h1 ++ hexWord32 s.h2 ++
    hexWord32 s.h3 ++ hexWord32 s.h4 ++ hexWord32 s.h5 ++
    hexWord32 s.h6 ++ hexWord32 s.h7)

/-! ## re._compute_sha256 (core_test.py lines 116-124) and
re._file_metadata (lines 158-166)

The `open` is modelled as an `Except ε (List Nat)`: a raised error
propagates.  The `while True: b = fh.read(chunk_size)` loop is modelled by
`sha256ReadLoop`, which returns the bytes passed to `h.update` in order
(`fh.read` yields the next `chunk_size` bytes and the loop breaks on an
empty read). -/

def sha256ReadLoop (data : List Nat) (chunk_size : Nat) : List Nat :=
  if h : (data.take chunk_size).isEmpty then []
  else data.take chunk_size ++ sha256ReadLoop (data.drop chunk_size) chunk_size
termination_by data.length
decreasing_by
  have h2 : ¬(chunk_size = 0 ∨ data = []) := by
    simpa [List.isEmpty_iff, List.take_eq_nil_iff] using h
  have h3 : data ≠ [] := fun hd => h2 (Or.inr hd)
  have h4 : 0 < data.length := List.length_pos.mpr h3
  simp only [List.length_drop]
  omega

def _compute_sha256 {ε : Type} (readFile : Except ε (List Nat))
    (chunk_size : Nat) : Except ε String :=
  match readFile with
  | Except.error e => Except.error e
  | Except.ok data => Except.ok (sha256hex (sha256ReadLoop data chunk_size))

structure FileStat where
  size : Nat
  mtime : Nat
  ctime : Nat
  mode : Nat
  deriving Repr, DecidableEq

structure FileMetadata where
  path : String
  size : Nat
  mtime : Nat
  ctime : Nat
  mode : Nat
  deriving Repr, DecidableEq

/-- `re._file_metadata`: `os.stat` is modelled as an `Except ε FileStat`
input; a raised `OSError` propagates (no `try` in the source).
`os.path.abspath` is modelled as the given absolute path. -/
def _file_metadata {ε : Type} (abspath : String)
    (stat : Except ε FileStat) : Except ε FileMetadata :=
  match stat with
  | Except.error e => Except.error e
  | Except.ok st => Except.ok ⟨abspath, st.size, st.mtime, st.ctime, st.mode⟩

/-! ## scraper._ensure_soup and the query helpers (web.py lines 56-146)

The BeautifulSoup queries themselves are third-party passthroughs, modelled
as parameter functions applied to the parsed soup (represented by the parse
of the stored HTML).  The guard `_ensure_soup` is translated exactly:
a stored soup is used as is; otherwise a truthy `last_html` is re-parsed and
an absent or empty `last_html` raises `RuntimeError`. -/

def noHtmlMsg : String := "No HTML loaded. call getweb(url) first."

def ensure_soup (parse : String → String) (st : ScraperState) :
    Except String String :=
  match st.soup with
  | some s => Except.ok s
  | none =>
      match st.last_html with
      | some h => if h = "" then Except.error noHtmlMsg else Except.ok (parse h)
      | none => Except.error noHtmlMsg

def extractalltext (parse : String → String) (textOf : String → Bool → String)
    (st : ScraperState) (collapse_whitespace : Bool) : Except String String :=
  (ensure_soup parse st).map (fun soup => textOf soup collapse_whitespace)

def extractallinteractions (parse : String → String)
    (interactionsOf : String → List (String × String × List (String × String)))
    (st : ScraperState) :
    Except String (List (String × String × List (String × String))) :=
  (ensure_soup parse st).map interactionsOf

def get_element (parse : String → String) (select : String → String → List String)
    (st : ScraperState) (el : String) : Except String (List String) :=
  (ensure_soup parse st).map (fun soup => select soup el)

def get_by_class (parse : String → String)
    (findAllByClass : String → String → List String)
    (st : ScraperState) (cls : String) : Except String (List String) :=
  (ensure_soup parse st).map (fun soup => findAllByClass soup cls)

def get_by_id (parse : String → String)
    (findById : String → String → Option String)
    (st : ScraperState) (idStr : String) : Except String (Option String) :=
  (ensure_soup parse st).map (fun soup => findById soup idStr)

/-! ## re.get_pid (core_test.py lines 38-113)

Each psutil field getter can raise; the snapshot carries each getter's
outcome as an `Except`.  `get_pid` wraps every single lookup in its own
try/except and stores `None` on failure, so each field of the returned
record is the `Option` view of its getter. -/

structure ProcSnapshot (ε : Type) where
  name : Except ε String
  cmdline : Except ε (List String)
  exe : Except ε String
  cwd : Except ε String
  username : Except ε String
  created : Except ε Nat
  status : Except ε String
  cpu_times : Except ε (List (String × Nat))
  memory_info : Except ε (Option Nat × Option Nat)
  open_files : Except ε (List String)
  connections : Except ε (List Unit)

structure PidRecord where
  pid : Nat
  name : Option String
  cmdline : Option (List String)
  exe : Option String
  cwd : Option String
  username : Option String
  created : Option Nat
  status : Option String
  cpu_times : Option (List (String × Nat))
  memory_info : Option (Option Nat × Option Nat)
  open_files : Option (List String)
  connections_count : Option Nat

/-- `re.get_pid`: `_safe_psutil_proc` returning `None` (no such process)
raises `ValueError`; otherwise every field is assembled from its own
guarded lookup. -/
def get_pid {ε : Type} (pid : Nat) (proc : Option (ProcSnapshot ε)) :
    Except String PidRecord :=
  match proc with
  | none => Except.error ("No process with pid=" ++ toString pid)
  | some p =>
      Except.ok
        { pid := pid
          name := p.name.toOption
          cmdline := p.cmdline.toOption
          exe := p.exe.toOption
          cwd := p.cwd.toOption
          username := p.username.toOption
          created := p.created.toOption
          status := p.status.toOption
          cpu_times := p.cpu_times.toOption
          memory_info := p.memory_info.toOption
          open_files := p.open_files.toOption
          connections_count := (p.connections.map List.length).toOption }

/-! ## injection.element and injection.css (web.py lines 149-205)

The parsed documents are modelled as forests of DOM nodes; `html.parser`
does not synthesize missing `html`/`head`/`body` wrappers, so the forest is
exactly what the markup contains.  BeautifulSoup tag attribute access
(`soup.body`, `soup.head`, `soup.html`) is `find(name)`: the first matching
element in pre-order; mutating it is modelled by `modifyTagL`, which applies
a function to the children of that first matching element and returns
`none` when there is no match (Python: attribute is `None` and the method
call raises `AttributeError`).  `str(soup)` serialization is omitted; the
functions return the modified forest. -/

inductive Node where
  | text (s : String)
  | elem (tag : String) (attrs : List (String × String)) (children : List Node)
  deriving Repr

/-- `soup.find(t)`: first element named `t` in pre-order document order. -/
def findTagL (t : String) : List Node → Option Node
  | [] => none
  | Node.text _ :: rest => findTagL t rest
  | Node.elem tag attrs children :: rest =>
      if tag = t then some (Node.elem tag attrs children)
      else
        match findTagL t children with
        | some n => some n
        | none => findTagL t rest

/-- Apply `f` to the children of the first element named `t` in pre-order;
`none` when no such element exists. -/
def modifyTagL (t : String) (f : List Node → List Node) :
    List Node → Option (List Node)
  | [] => none
  | Node.text s :: rest =>
      match modifyTagL t f rest with
      | some r => some (Node.text s :: r)
      | none => none
  | Node.elem tag attrs children :: rest =>
      if tag = t then some (Node.elem tag attrs (f children) :: rest)
      else
        match modifyTagL t f children with
        | some c2 => some (Node.elem tag attrs c2 :: rest)
        | none =>
            match modifyTagL t f rest with
            | some r => some (Node.elem tag attrs children :: r)
            | none => none

/-- `tag = t || hasTagL t children || hasTagL t rest`: whether an element
named `t` occurs anywhere in the forest. -/
def hasTagL (t : String) : List Node → Bool
  | [] => false
  | Node.text _ :: rest => hasTagL t rest
  | Node.elem tag _ children :: rest =>
      tag = t || hasTagL t children || hasTagL t rest

/-- `injection.element` lines 163-170: if `soup.body` is `None`, create a
body, move all top-level content into it and append it to the soup. -/
def ensureBody (doc : List Node) : List Node :=
  if (findTagL "body" doc).isSome then doc else [Node.elem "body" [] doc]

/-- `injection.element` (web.py lines 155-182).  `snippet` is the parsed
snippet forest.  Placements: "head"/"start" → append to `soup.head`,
creating the head inside `soup.html` if missing (crashes — `none` — when
`soup.html` is also missing); "body-start"/"start-body" → insert at the
start of `soup.body`; anything else → append to `soup.body`. -/
def element (doc snippet : List Node) (wh : String) : Option (List Node) :=
  if wh = "head" ∨ wh = "start" then
    match findTagL "head" (ensureBody doc) with
    | some _ => modifyTagL "head" (fun c => c ++ snippet) (ensureBody doc)
    | none =>
        match modifyTagL "html" (fun c => Node.elem "head" [] [] :: c)
            (ensureBody doc) with
        | none => none
        | some doc3 => modifyTagL "head" (fun c => c ++ snippet) doc3
  else if wh = "body-start" ∨ wh = "start-body" then
    modifyTagL "body" (fun c => snippet ++ c) (ensureBody doc)
  else
    modifyTagL "body" (fun c => c ++ snippet) (ensureBody doc)

/-- `injection.css` (web.py lines 184-205): ensure a head exists (creating
the `html` root first if missing, moving all content into it), then append
a `<style>` element holding the CSS text to `soup.head`. -/
def css (doc : List Node) (snippet : String) : Option (List Node) :=
  if (findTagL "head" doc).isSome then
    modifyTagL "head"
      (fun c => c ++ [Node.elem "style" [] [Node.text snippet]]) doc
  else
    match modifyTagL "html" (fun c => Node.elem "head" [] [] :: c)
        (if (findTagL "html" doc).isSome then doc
         else [Node.elem "html" [] doc]) with
    | none => none
    | some doc4 =>
        modifyTagL "head"
          (fun c => c ++ [Node.elem "style" [] [Node.text snippet]]) doc4

/-! Helper lemmas about the retry loop. -/

/-- If every remaining attempt fails (errors `front ++ [elast]`), the loop
raises exactly the last error `elast`, makes `front.length + 1` attempts,
leaves the state untouched, and sleeps `2^a, …, 2^(a + front.length - 1)`. -/
theorem getwebLoop_allfail (link : String) (parse : String → String)
    (st : ScraperState) {ε : Type} (elast : ε) :
    ∀ (front : List ε) (a : Nat) (lastExc : Option ε),
    getwebLoop link parse st a lastExc ((front ++ [elast]).map Except.error) =
      ⟨Except.error (some elast), st, front.length + 1,
       (List.range' a front.length).map (2 ^ ·)⟩
  | [], a, lastExc => by simp [getwebLoop]
  | e :: front, a, lastExc => by
      have ih := getwebLoop_allfail link parse st elast front (a + 1) (some e)
      simp only [List.cons_append, List.map_cons, getwebLoop]
      rw [if_neg (by simp)]
      simp only [List.append_eq]
      rw [ih]
      simp [List.range'_succ]

/-- If the first `es.length` attempts fail and the next succeeds with `html`,
the loop returns the HTML, stores it together with the URL and parsed soup,
makes `es.length + 1` attempts, and sleeps `2^a, …, 2^(a + es.length - 1)`. -/
theorem getwebLoop_succ (link : String) (parse : String → String)
    (st : ScraperState) {ε : Type} (html : String) :
    ∀ (es : List ε) (a : Nat) (lastExc : Option ε) (rest : List (Except ε String)),
    getwebLoop link parse st a lastExc
        (es.map Except.error ++ Except.ok html :: rest) =
      ⟨Except.ok html,
       { last_html := some html, last_url := some link, soup := some (parse html) },
       es.length + 1, (List.range' a es.length).map (2 ^ ·)⟩
  | [], a, lastExc, rest => by simp [getwebLoop]
  | e :: es, a, lastExc, rest => by
      have ih := getwebLoop_succ link parse st html es (a + 1) (some e) rest
      simp only [List.map_cons, List.cons_append, getwebLoop]
      rw [if_neg (by simp)]
      simp only [List.append_eq]
      rw [ih]
      simp [List.range'_succ]

/-- A `getweb` call in which every attempt `i < max_retries` fails with error
`err i` (and `max_retries ≥ 1`): combined description of its trace. -/
theorem getweb_allfail {ε : Type} (link : String) (parse : String → String)
    (st : ScraperState) (max_retries : Nat) (fetch : Nat → Except ε String)
    (err : Nat → ε) (respect_delay : Bool) (jitter : Nat)
    (hmr : 1 ≤ max_retries)
    (hfail : ∀ i, i < max_retries → fetch i = Except.error (err i)) :
    (getweb link parse st max_retries fetch respect_delay jitter).run =
      ⟨Except.error (some (err (max_retries - 1))), st, max_retries,
       (List.range' 0 (max_retries - 1)).map (2 ^ ·)⟩ := by
  obtain ⟨m, rfl⟩ : ∃ m, max_retries = m + 1 :=
    ⟨max_retries - 1, by omega⟩
  have hdecomp : (List.range (m + 1)).map fetch =
      (((List.range m).map err) ++ [err m]).map Except.error := by
    rw [List.range_succ, List.map_append, List.map_append, List.map_map]
    congr 1
    · exact List.map_congr_left fun i hi =>
        hfail i (lt_of_lt_of_le (List.mem_range.mp hi) (by omega))
    · simp [hfail m (by omega)]
  show getwebLoop link parse st 0 none ((List.range (m + 1)).map fetch) = _
  rw [hdecomp, getwebLoop_allfail]
  simp

/-- C1: For every call to scraper.getweb in which all max_retries attempts
(max_retries ≥ 1) raise an error, the call raises exactly the error
encountered on the final attempt (not a synthesized one), exactly max_retries
network attempts are made, and no further attempts occur after the last
failure. -/
theorem C1_retry_exhaustion {ε : Type} (link : String) (parse : String → String)
    (st : ScraperState) (max_retries : Nat) (fetch : Nat → Except ε String)
    (err : Nat → ε) (respect_delay : Bool) (jitter : Nat)
    (hmr : 1 ≤ max_retries)
    (hfail : ∀ i, i < max_retries → fetch i = Except.error (err i)) :
    (getweb link parse st max_retries fetch respect_delay jitter).run.result =
        Except.error (some (err (max_retries - 1))) ∧
      (getweb link parse st max_retries fetch respect_delay jitter).run.attempts =
        max_retries := by
  rw [getweb_allfail link parse st max_retries fetch err respect_delay jitter hmr hfail]
  exact ⟨rfl, rfl⟩

/-- Witness for C1 at a concrete input: three attempts, all failing with
errors 0, 1, 2; the surfaced error is the final one (2) and exactly three
attempts are made. -/
theorem C1_retry_exhaustion_witness :
    1 ≤ 3 ∧
      ((getweb "u" id ⟨none, none, none⟩ 3
            (fun i => (Except.error i : Except Nat String)) true 0).run.result =
          Except.error (some 2) ∧
        (getweb "u" id ⟨none, none, none⟩ 3
            (fun i => (Except.error i : Except Nat String)) true 0).run.attempts = 3) :=
  ⟨by decide,
   C1_retry_exhaustion "u" id ⟨none, none, none⟩ 3
     (fun i => Except.error i) (fun i => i) true 0 (by decide) (fun i _ => rfl)⟩

/-- C2: For every call to scraper.getweb that fails on attempts 0..k-1 and
succeeds on attempt k with k < max_retries, the sleep performed before
attempt i+1 equals 2^i time units (attempt index 0-based), exactly k+1
network attempts occur, at most max_retries attempts ever occur, and no
attempt is made after a success. -/
theorem C2_backoff_monotonicity {ε : Type} (link : String)
    (parse : String → String) (st : ScraperState) (max_retries : Nat)
    (fetch : Nat → Except ε String) (err : Nat → ε) (k : Nat) (html : String)
    (respect_delay : Bool) (jitter : Nat)
    (hk : k < max_retries)
    (hfail : ∀ i, i < k → fetch i = Except.error (err i))
    (hsucc : fetch k = Except.ok html) :
    (getweb link parse st max_retries fetch respect_delay jitter).run.sleeps =
        (List.range k).map (2 ^ ·) ∧
      (getweb link parse st max_retries fetch respect_delay jitter).run.attempts =
        k + 1 ∧
      (getweb link parse st max_retries fetch respect_delay jitter).run.attempts ≤
        max_retries ∧
      (getweb link parse st max_retries fetch respect_delay jitter).run.result =
        Except.ok html := by
  obtain ⟨r, rfl⟩ : ∃ r, max_retries = k + (r + 1) :=
    ⟨max_retries - k - 1, by omega⟩
  obtain ⟨rest, hdecomp⟩ : ∃ rest, (List.range (k + (r + 1))).map fetch =
      ((List.range k).map err).map Except.error ++ Except.ok html :: rest := by
    refine ⟨(List.range r).map ((fetch ∘ fun x => k + x) ∘ Nat.succ), ?_⟩
    rw [List.range_add, List.map_append, List.map_map]
    congr 1
    · rw [List.map_map]
      exact List.map_congr_left fun i hi =>
        hfail i (List.mem_range.mp hi)
    · rw [List.range_succ_eq_map, List.map_cons, List.map_map]
      congr 1
  have hrun : (getweb link parse st (k + (r + 1)) fetch respect_delay jitter).run =
      ⟨Except.ok html,
       { last_html := some html, last_url := some link, soup := some (parse html) },
       ((List.range k).map err).length + 1,
       (List.range' 0 ((List.range k).map err).length).map (2 ^ ·)⟩ := by
    show getwebLoop link parse st 0 none ((List.range (k + (r + 1))).map fetch) = _
    rw [hdecomp, getwebLoop_succ]
  rw [hrun]
  refine ⟨?_, ?_, ?_, rfl⟩
  · simp [← List.range_eq_range']
  · simp only [List.length_map, List.length_range]
  · simp only [List.length_map, List.length_range]
    omega

/-- Witness for C2 at a concrete input: failures on attempts 0 and 1, success
on attempt 2, with max_retries = 5: back-off sleeps are [1, 2], three
attempts occur, at most five occur, and the result is the fetched HTML. -/
theorem C2_backoff_monotonicity_witness :
    2 < 5 ∧
      ((getweb "u" id ⟨none, none, none⟩ 5
            (fun i => if i < 2 then (Except.error i : Except Nat String)
                      else Except.ok "H") true 0).run.sleeps =
          (List.range 2).map (2 ^ ·) ∧
        (getweb "u" id ⟨none, none, none⟩ 5
            (fun i => if i < 2 then (Except.error i : Except Nat String)
                      else Except.ok "H") true 0).run.attempts = 2 + 1 ∧
        (getweb "u" id ⟨none, none, none⟩ 5
            (fun i => if i < 2 then (Except.error i : Except Nat String)
                      else Except.ok "H") true 0).run.attempts ≤ 5 ∧
        (getweb "u" id ⟨none, none, none⟩ 5
            (fun i => if i < 2 then (Except.error i : Except Nat String)
                      else Except.ok "H") true 0).run.result = Except.ok "H") :=
  ⟨by decide,
   C2_backoff_monotonicity "u" id ⟨none, none, none⟩ 5
     (fun i => if i < 2 then Except.error i else Except.ok "H") (fun i => i) 2 "H"
     true 0 (by decide) (fun i hi => by simp [hi]) (by rfl)⟩

/-- C10: For every scraper instance and every call to getweb that raises (all
attempts failed), the instance fields last_html, last_url, and _soup are
unchanged from their values before the call: the stored HTML, URL, and parsed
document are assigned only on a successful attempt, so a failed fetch leaves
the previously loaded state intact. -/
theorem C10_failed_fetch_preserves_state {ε : Type} (link : String)
    (parse : String → String) (st : ScraperState) (max_retries : Nat)
    (fetch : Nat → Except ε String) (err : Nat → ε)
    (respect_delay : Bool) (jitter : Nat)
    (hmr : 1 ≤ max_retries)
    (hfail : ∀ i, i < max_retries → fetch i = Except.error (err i)) :
    (getweb link parse st max_retries fetch respect_delay jitter).run.state = st := by
  rw [getweb_allfail link parse st max_retries fetch err respect_delay jitter hmr hfail]

/-- Witness for C10 at a concrete input: a scraper holding previously loaded
HTML keeps all three fields intact across a fetch whose two attempts both
fail. -/
theorem C10_failed_fetch_preserves_state_witness :
    1 ≤ 2 ∧
      (getweb "u2" id ⟨some "old", some "u1", some "old"⟩ 2
          (fun i => (Except.error i : Except Nat String)) false 0).run.state =
        ⟨some "old", some "u1", some "old"⟩ :=
  ⟨by decide,
   C10_failed_fetch_preserves_state "u2" id ⟨some "old", some "u1", some "old"⟩ 2
     (fun i => Except.error i) (fun i => i) false 0 (by decide) (fun i _ => rfl)⟩

/-- The scan loop equals the spec reference: starting from partial run `acc`
and already-emitted `results` (still below the cap), it extends `results`
with the qualifying runs of the rest of the buffer, truncated to the
remaining capacity. -/
theorem scanLoop_eq (min_len max_results : Nat) (hmin : 1 ≤ min_len) :
    ∀ (data : List Nat) (acc : List Char) (results : List String),
      results.length < max_results →
      scanLoop min_len max_results data acc results =
        results ++ (((maximalRunsAux data acc).filter
          (fun r => min_len ≤ r.length)).map (fun r => String.mk r)).take
          (max_results - results.length)
  | [], acc, results, hres => by
      obtain ⟨m, hm⟩ : ∃ m, max_results - results.length = m + 1 :=
        ⟨max_results - results.length - 1, by omega⟩
      simp only [scanLoop, maximalRunsAux, hm]
      by_cases hlen : min_len ≤ acc.length
      · have hacc : acc.isEmpty = false := by
          cases acc with
          | nil => simp at hlen; omega
          | cons c cs => rfl
        simp [hlen, hres, hacc]
      · by_cases hacc : acc.isEmpty
        · simp [hacc, hres, hlen]
        · simp [hacc, hres, hlen]
  | b :: rest, acc, results, hres => by
      by_cases hc : printableChar (Char.ofNat b) = true
      · simp only [scanLoop, maximalRunsAux, hc, if_true]
        exact scanLoop_eq min_len max_results hmin rest (acc ++ [Char.ofNat b])
          results hres
      · simp only [scanLoop, maximalRunsAux, hc, if_false]
        by_cases hlen : min_len ≤ acc.length
        · have hacc : acc.isEmpty = false := by
            cases acc with
            | nil => simp at hlen; omega
            | cons c cs => rfl
          obtain ⟨m, hm⟩ : ∃ m, max_results - results.length = m + 1 :=
            ⟨max_results - results.length - 1, by omega⟩
          simp only [hlen, if_true, hacc, if_false, hm, Bool.false_eq_true]
          rw [List.filter_cons_of_pos (by simpa using hlen)]
          by_cases hcap : max_results ≤ (results ++ [String.mk acc]).length
          · have hm0 : m = 0 := by
              simp only [List.length_append, List.length_singleton] at hcap
              omega
            rw [if_pos hcap, hm0]
            simp
          · have hres2 : (results ++ [String.mk acc]).length < max_results := by
              omega
            have ih := scanLoop_eq min_len max_results hmin rest []
              (results ++ [String.mk acc]) hres2
            have hm2 : max_results - (results ++ [String.mk acc]).length = m := by
              simp only [List.length_append, List.length_singleton]
              omega
            rw [if_neg hcap, ih, hm2]
            simp
        · simp only [hlen, if_false]
          by_cases hacc : acc.isEmpty = true
          · simp only [hacc, if_true]
            exact scanLoop_eq min_len max_results hmin rest [] results hres
          · simp only [hacc, if_false, Bool.false_eq_true]
            rw [List.filter_cons_of_neg (by simpa using hlen)]
            exact scanLoop_eq min_len max_results hmin rest [] results hres

/-- If even the current run plus all remaining bytes are shorter than
`min_len`, the scan emits nothing further. -/
theorem scanLoop_short (min_len max_results : Nat) :
    ∀ (data : List Nat) (acc : List Char) (results : List String),
      acc.length + data.length < min_len →
      scanLoop min_len max_results data acc results = results
  | [], acc, results, h => by
      simp only [scanLoop]
      rw [if_neg]
      simp only [Bool.and_eq_true, decide_eq_true_eq, not_and]
      intro _
      omega
  | b :: rest, acc, results, h => by
      have hlen : ¬ min_len ≤ acc.length := by
        simp only [List.length_cons] at h
        omega
      have hrest : acc.length + 1 + rest.length < min_len := by
        simp only [List.length_cons] at h
        omega
      simp only [scanLoop]
      by_cases hc : printableChar (Char.ofNat b) = true
      · rw [if_pos hc]
        exact scanLoop_short min_len max_results rest (acc ++ [Char.ofNat b]) results
          (by simp only [List.length_append, List.length_singleton]; omega)
      · rw [if_neg hc, if_neg hlen]
        exact scanLoop_short min_len max_results rest [] results
          (by simp only [List.length_nil]; omega)

/-- C3: For every byte buffer and every min_len ≥ 1 and max_results ≥ 1,
re._extract_strings equals the reference single-pass scan: it accumulates
maximal runs of consecutive bytes in the printable ASCII range [0x20, 0x7E];
a run terminated by an out-of-range byte is emitted iff its length ≥ min_len;
if the buffer ends before the cap is reached and the final accumulated run
has length ≥ min_len it is emitted as one final trailing result; and for any
buffer producing more than max_results qualifying runs, exactly max_results
results are returned, in left-to-right buffer order, with the scan breaking
out once the cap is reached. -/
theorem C3_extract_strings_refines_reference (data : List Nat)
    (min_len max_results : Nat) (hmin : 1 ≤ min_len) (hmax : 1 ≤ max_results) :
    _extract_strings (some data) min_len max_results =
        ((qualifyingRuns data min_len).map (fun r => String.mk r)).take max_results ∧
      (max_results < (qualifyingRuns data min_len).length →
        (_extract_strings (some data) min_len max_results).length = max_results) := by
  have h := scanLoop_eq min_len max_results hmin data [] [] (by simpa using hmax)
  have hmain : _extract_strings (some data) min_len max_results =
      ((qualifyingRuns data min_len).map (fun r => String.mk r)).take max_results := by
    simpa [_extract_strings, qualifyingRuns, maximalRuns] using h
  refine ⟨hmain, fun hgt => ?_⟩
  rw [hmain, List.length_take, List.length_map]
  omega

/-- Witness for C3 at a concrete input: buffer `A \x00 B` with min_len = 1 and
max_results = 1 — two qualifying runs exist, exactly one is returned. -/
theorem C3_extract_strings_refines_reference_witness :
    1 ≤ 1 ∧ 1 ≤ 1 ∧
      (_extract_strings (some [65, 0, 66]) 1 1 =
          ((qualifyingRuns [65, 0, 66] 1).map (fun r => String.mk r)).take 1 ∧
        (1 < (qualifyingRuns [65, 0, 66] 1).length →
          (_extract_strings (some [65, 0, 66]) 1 1).length = 1)) :=
  ⟨by decide, by decide,
   C3_extract_strings_refines_reference [65, 0, 66] 1 1 (by decide) (by decide)⟩

/-- C4: re._extract_strings on the buffer b"AB\x00CDEF\x01" with min_len=2
returns exactly ["AB", "CDEF"]; on the same buffer with min_len=5 it returns
the empty sequence; on the empty buffer it returns the empty sequence; and
for every buffer, whenever min_len exceeds the buffer length the result is
the empty sequence. -/
theorem C4_extract_strings_examples :
    _extract_strings (some [0x41, 0x42, 0x00, 0x43, 0x44, 0x45, 0x46, 0x01]) 2 200 =
        ["AB", "CDEF"] ∧
      _extract_strings (some [0x41, 0x42, 0x00, 0x43, 0x44, 0x45, 0x46, 0x01]) 5 200 =
        [] ∧
      _extract_strings (some []) 4 200 = [] ∧
      ∀ (data : List Nat) (min_len max_results : Nat), data.length < min_len →
        _extract_strings (some data) min_len max_results = [] := by
  refine ⟨by decide, by decide, by decide,
    fun data min_len max_results h => ?_⟩
  show scanLoop min_len max_results data [] [] = []
  exact scanLoop_short min_len max_results data [] []
    (by simp only [List.length_nil]; omega)

/-- Witness for C4: the general part applied to the buffer [65, 66] with
min_len = 5 exceeding its length. -/
theorem C4_extract_strings_examples_witness :
    ([65, 66] : List Nat).length < 5 ∧ _extract_strings (some [65, 66]) 5 9 = [] :=
  ⟨by decide, C4_extract_strings_examples.2.2.2 [65, 66] 5 9 (by decide)⟩

/-- The `fh.read(chunk_size)` loop feeds the whole file to the hash, in
order, for any positive chunk size. -/
theorem sha256ReadLoop_id (chunk_size : Nat) (hc : 1 ≤ chunk_size) :
    ∀ data : List Nat, sha256ReadLoop data chunk_size = data
  | data => by
      rw [sha256ReadLoop]
      by_cases hd : data = []
      · subst hd
        simp
      · have hne : ¬((data.take chunk_size).isEmpty = true) := by
          simp only [List.isEmpty_iff, List.take_eq_nil_iff]
          rintro (h0 | h0)
          · omega
          · exact hd h0
        rw [dif_neg hne]
        have hpos : 0 < data.length := List.length_pos.mpr hd
        have hlt : (data.drop chunk_size).length < data.length := by
          simp only [List.length_drop]
          omega
        rw [sha256ReadLoop_id chunk_size hc (data.drop chunk_size)]
        exact List.take_append_drop chunk_size data
  termination_by data => data.length
  decreasing_by exact hlt

theorem hexDigit_mem (n : Nat) : hexDigit n ∈ hexAlphabet := by
  by_cases h : n < 16
  · interval_cases n <;> decide
  · unfold hexDigit
    rw [List.getD_eq_default]
    · decide
    · have h16 : hexAlphabet.length = 16 := by decide
      omega

theorem hexWord32_mem (x : Nat) (ch : Char) (h : ch ∈ hexWord32 x) :
    ch ∈ hexAlphabet := by
  simp only [hexWord32, List.mem_map, List.mem_range] at h
  obtain ⟨i, -, rfl⟩ := h
  exact hexDigit_mem _

/-- C5: For every file content that can be read and every pair of positive
chunk sizes c1, c2, re._compute_sha256 with c1 equals re._compute_sha256
with c2, and both equal the lowercase 64-hex-character SHA-256 digest of the
file's full byte content; in particular chunk_size=1 and chunk_size=65536
yield the same digest. -/
theorem C5_digest_chunk_independence {ε : Type} (data : List Nat) (c1 c2 : Nat)
    (h1 : 1 ≤ c1) (h2 : 1 ≤ c2) :
    _compute_sha256 (Except.ok data : Except ε (List Nat)) c1 =
        _compute_sha256 (Except.ok data) c2 ∧
      _compute_sha256 (Except.ok data : Except ε (List Nat)) c1 =
        Except.ok (sha256hex data) ∧
      (sha256hex data).length = 64 ∧
      ∀ ch ∈ (sha256hex data).toList, ch ∈ hexAlphabet := by
  have e1 : _compute_sha256 (Except.ok data : Except ε (List Nat)) c1 =
      Except.ok (sha256hex data) := by
    simp [_compute_sha256, sha256ReadLoop_id c1 h1 data]
  have e2 : _compute_sha256 (Except.ok data : Except ε (List Nat)) c2 =
      Except.ok (sha256hex data) := by
    simp [_compute_sha256, sha256ReadLoop_id c2 h2 data]
  refine ⟨e1.trans e2.symm, e1, ?_, ?_⟩
  · show (sha256hex data).length = 64
    simp [sha256hex, hexWord32, String.length]
  · intro ch hch
    have hch2 : ch ∈ hexWord32 (sha256Words data).h0 ++
        hexWord32 (sha256Words data).h1 ++ hexWord32 (sha256Words data).h2 ++
        hexWord32 (sha256Words data).h3 ++ hexWord32 (sha256Words data).h4 ++
        hexWord32 (sha256Words data).h5 ++ hexWord32 (sha256Words data).h6 ++
        hexWord32 (sha256Words data).h7 := hch
    simp only [List.mem_append] at hch2
    rcases hch2 with ((((((h | h) | h) | h) | h) | h) | h) | h <;>
      exact hexWord32_mem _ _ h

/-- Witness for C5 at a concrete input: the bytes of "abc" hashed with
chunk sizes 1 and 65536. -/
theorem C5_digest_chunk_independence_witness :
    1 ≤ 1 ∧ 1 ≤ 65536 ∧
      (_compute_sha256 (Except.ok [97, 98, 99] : Except Unit (List Nat)) 1 =
          _compute_sha256 (Except.ok [97, 98, 99]) 65536 ∧
        _compute_sha256 (Except.ok [97, 98, 99] : Except Unit (List Nat)) 1 =
          Except.ok (sha256hex [97, 98, 99]) ∧
        (sha256hex [97, 98, 99]).length = 64 ∧
        ∀ ch ∈ (sha256hex [97, 98, 99]).toList, ch ∈ hexAlphabet) :=
  ⟨by decide, by decide,
   C5_digest_chunk_independence [97, 98, 99] 1 65536 (by decide) (by decide)⟩

/-- C6: For every path that does not exist or cannot be read,
re._extract_strings returns the empty result sequence and does not raise;
the read failure is swallowed, in contrast to the digest and metadata
operations which propagate the error. -/
theorem C6_read_failure_policy {ε : Type} (e : ε)
    (min_len max_results chunk_size : Nat) (abspath : String) :
    _extract_strings (none : Option (List Nat)) min_len max_results = [] ∧
      _compute_sha256 (Except.error e : Except ε (List Nat)) chunk_size =
        Except.error e ∧
      _file_metadata abspath (Except.error e : Except ε FileStat) =
        Except.error e :=
  ⟨rfl, rfl, rfl⟩

/-- C8: For every scraper instance on which no fetch has succeeded (no HTML
loaded), every query operation — extractalltext, extractallinteractions,
get_element, get_by_class, get_by_id — raises an error; the failure is fatal
to that call and is not retried. -/
theorem C8_queries_before_fetch_raise (parse : String → String)
    (textOf : String → Bool → String)
    (interactionsOf : String → List (String × String × List (String × String)))
    (select : String → String → List String)
    (findAllByClass : String → String → List String)
    (findById : String → String → Option String)
    (st : ScraperState) (collapse_whitespace : Bool) (el cls idStr : String)
    (hhtml : st.last_html = none) (hsoup : st.soup = none) :
    extractalltext parse textOf st collapse_whitespace =
        Except.error noHtmlMsg ∧
      extractallinteractions parse interactionsOf st = Except.error noHtmlMsg ∧
      get_element parse select st el = Except.error noHtmlMsg ∧
      get_by_class parse findAllByClass st cls = Except.error noHtmlMsg ∧
      get_by_id parse findById st idStr = Except.error noHtmlMsg := by
  have h : ensure_soup parse st = Except.error noHtmlMsg := by
    simp [ensure_soup, hsoup, hhtml]
  refine ⟨?_, ?_, ?_, ?_, ?_⟩ <;>
    simp [extractalltext, extractallinteractions, get_element, get_by_class,
      get_by_id, h, Except.map]

/-- Witness for C8: a freshly constructed scraper state (all three fields
absent) makes all five queries fail with the `RuntimeError` message. -/
theorem C8_queries_before_fetch_raise_witness :
    (⟨none, none, none⟩ : ScraperState).last_html = none ∧
      (⟨none, none, none⟩ : ScraperState).soup = none ∧
      (extractalltext id (fun s _ => s) ⟨none, none, none⟩ true =
          Except.error noHtmlMsg ∧
        extractallinteractions id (fun _ => []) ⟨none, none, none⟩ =
          Except.error noHtmlMsg ∧
        get_element id (fun _ _ => []) ⟨none, none, none⟩ "h1" =
          Except.error noHtmlMsg ∧
        get_by_class id (fun _ _ => []) ⟨none, none, none⟩ "c" =
          Except.error noHtmlMsg ∧
        get_by_id id (fun _ _ => none) ⟨none, none, none⟩ "i" =
          Except.error noHtmlMsg) :=
  ⟨rfl, rfl,
   C8_queries_before_fetch_raise id (fun s _ => s) (fun _ => [])
     (fun _ _ => []) (fun _ _ => []) (fun _ _ => none)
     ⟨none, none, none⟩ true "h1" "c" "i" rfl rfl⟩

/-- C9: For every existing process id, re.get_pid returns a metadata record
in which each individually failing field lookup (e.g. open_files denied by
permission) is reported as absent (None) for that field only, while all
other obtainable fields remain populated; no single field failure ever
aborts assembly of the overall record. -/
theorem C9_get_pid_field_leniency {ε : Type} (pid : Nat) (p : ProcSnapshot ε) :
    ∃ r : PidRecord, get_pid pid (some p) = Except.ok r ∧
      r.pid = pid ∧
      r.name = p.name.toOption ∧
      r.cmdline = p.cmdline.toOption ∧
      r.exe = p.exe.toOption ∧
      r.cwd = p.cwd.toOption ∧
      r.username = p.username.toOption ∧
      r.created = p.created.toOption ∧
      r.status = p.status.toOption ∧
      r.cpu_times = p.cpu_times.toOption ∧
      r.memory_info = p.memory_info.toOption ∧
      r.open_files = p.open_files.toOption ∧
      r.connections_count = (p.connections.map List.length).toOption ∧
      (r.open_files = none ↔ ∃ e, p.open_files = Except.error e) ∧
      (∀ v, r.open_files = some v ↔ p.open_files = Except.ok v) := by
  refine ⟨_, rfl, rfl, rfl, rfl, rfl, rfl, rfl, rfl, rfl, rfl, rfl, rfl, rfl, ?_, ?_⟩
  · show p.open_files.toOption = none ↔ _
    cases p.open_files with
    | ok v => simp [Except.toOption]
    | error e => simp [Except.toOption]
  · intro v
    show p.open_files.toOption = some v ↔ _
    cases p.open_files with
    | ok w => simp [Except.toOption]
    | error e => simp [Except.toOption]

/-- If no `t`-element occurs, the mutation fails (`AttributeError` on the
`None` attribute in Python). -/
theorem findTag_none_modify (t : String) (f : List Node → List Node) :
    ∀ doc : List Node, findTagL t doc = none → modifyTagL t f doc = none
  | [], _ => by simp [modifyTagL]
  | Node.text s :: rest, h => by
      have hr := findTag_none_modify t f rest (by simpa [findTagL] using h)
      simp [modifyTagL, hr]
  | Node.elem tag attrs children :: rest, h => by
      simp only [findTagL] at h
      by_cases ht : tag = t
      · simp [ht] at h
      · rw [if_neg ht] at h
        cases hc : findTagL t children with
        | some n => rw [hc] at h; simp at h
        | none =>
            rw [hc] at h
            have hcm := findTag_none_modify t f children hc
            have hrm := findTag_none_modify t f rest (by simpa using h)
            simp [modifyTagL, ht, hcm, hrm]

/-- `find(t)` only ever returns an element named `t`. -/
theorem findTag_shape (t : String) :
    ∀ (doc : List Node) (n : Node), findTagL t doc = some n →
      ∃ a c, n = Node.elem t a c
  | [], n, h => by simp [findTagL] at h
  | Node.text s :: rest, n, h =>
      findTag_shape t rest n (by simpa [findTagL] using h)
  | Node.elem tag attrs children :: rest, n, h => by
      simp only [findTagL] at h
      by_cases ht : tag = t
      · rw [if_pos ht] at h
        obtain rfl : Node.elem tag attrs children = n := Option.some.inj h
        exact ⟨attrs, children, by rw [ht]⟩
      · rw [if_neg ht] at h
        cases hc : findTagL t children with
        | some m =>
            rw [hc] at h
            have hmn : m = n := by simpa using h
            exact hmn ▸ findTag_shape t children m hc
        | none =>
            rw [hc] at h
            exact findTag_shape t rest n (by simpa using h)

/-- Mutating the children of the first `t`-element (pre-order) succeeds when
`find(t)` succeeds, and the first `t`-element of the result carries the
mutated children. -/
theorem findTag_some_modify (t : String) (f : List Node → List Node) :
    ∀ (doc : List Node) (a : List (String × String)) (c : List Node),
      findTagL t doc = some (Node.elem t a c) →
      ∃ doc2, modifyTagL t f doc = some doc2 ∧
        findTagL t doc2 = some (Node.elem t a (f c))
  | [], a, c, h => by simp [findTagL] at h
  | Node.text s :: rest, a, c, h => by
      obtain ⟨doc2, h1, h2⟩ := findTag_some_modify t f rest a c
        (by simpa [findTagL] using h)
      exact ⟨Node.text s :: doc2, by simp [modifyTagL, h1],
        by simpa [findTagL] using h2⟩
  | Node.elem tag attrs children :: rest, a, c, h => by
      simp only [findTagL] at h
      by_cases ht : tag = t
      · subst ht
        rw [if_pos rfl] at h
        have h4 : Node.elem tag attrs children = Node.elem tag a c :=
          Option.some.inj h
        injection h4 with _ h5 h6
        subst h5
        subst h6
        refine ⟨Node.elem tag attrs (f children) :: rest, ?_, ?_⟩
        · simp [modifyTagL]
        · simp [findTagL]
      · rw [if_neg ht] at h
        cases hc : findTagL t children with
        | some m =>
            rw [hc] at h
            have hm : m = Node.elem t a c := by simpa using h
            subst hm
            obtain ⟨c2, h1, h2⟩ := findTag_some_modify t f children a c hc
            refine ⟨Node.elem tag attrs c2 :: rest, ?_, ?_⟩
            · simp [modifyTagL, ht, h1]
            · simp [findTagL, ht, h2]
        | none =>
            rw [hc] at h
            have hr : findTagL t rest = some (Node.elem t a c) := by simpa using h
            obtain ⟨doc2, h1, h2⟩ := findTag_some_modify t f rest a c hr
            have hcm := findTag_none_modify t f children hc
            refine ⟨Node.elem tag attrs children :: doc2, ?_, ?_⟩
            · simp [modifyTagL, ht, hcm, h1]
            · simp [findTagL, ht, hc, h2]

/-- `find(t)` succeeds exactly when a `t`-element occurs in the forest. -/
theorem findTag_isSome_eq_hasTag (t : String) :
    ∀ doc : List Node, (findTagL t doc).isSome = hasTagL t doc
  | [] => by simp [findTagL, hasTagL]
  | Node.text s :: rest => by
      simp [findTagL, hasTagL, findTag_isSome_eq_hasTag t rest]
  | Node.elem tag attrs children :: rest => by
      simp only [findTagL, hasTagL]
      have ihc := findTag_isSome_eq_hasTag t children
      have ihr := findTag_isSome_eq_hasTag t rest
      by_cases ht : tag = t
      · simp [ht]
      · rw [if_neg ht]
        cases hc : findTagL t children with
        | some n =>
            rw [hc] at ihc
            simp [ht, ← ihc]
        | none =>
            rw [hc] at ihc
            simp [ht, ← ihc, ihr]

/-- A `u`-element occurring among the children of the first `t`-element
occurs in the whole forest. -/
theorem hasTag_of_findTag_children (t u : String) :
    ∀ (doc : List Node) (a : List (String × String)) (c : List Node),
      findTagL t doc = some (Node.elem t a c) → hasTagL u c = true →
      hasTagL u doc = true
  | [], a, c, h, _ => by simp [findTagL] at h
  | Node.text s :: rest, a, c, h, hu => by
      simp only [hasTagL]
      exact hasTag_of_findTag_children t u rest a c
        (by simpa [findTagL] using h) hu
  | Node.elem tag attrs children :: rest, a, c, h, hu => by
      simp only [findTagL] at h
      simp only [hasTagL]
      by_cases ht : tag = t
      · subst ht
        rw [if_pos rfl] at h
        have h4 : Node.elem tag attrs children = Node.elem tag a c :=
          Option.some.inj h
        injection h4 with _ h5 h6
        subst h6
        simp [hu]
      · rw [if_neg ht] at h
        cases hc : findTagL t children with
        | some m =>
            rw [hc] at h
            have hm : m = Node.elem t a c := by simpa using h
            subst hm
            have hres := hasTag_of_findTag_children t u children a c hc hu
            simp [hres]
        | none =>
            rw [hc] at h
            have hres := hasTag_of_findTag_children t u rest a c
              (by simpa using h) hu
            simp [hres]

/-- After `ensureBody`, a body element is always findable. -/
theorem ensureBody_body (doc : List Node) :
    ∃ a c, findTagL "body" (ensureBody doc) = some (Node.elem "body" a c) := by
  unfold ensureBody
  by_cases h : (findTagL "body" doc).isSome
  · rw [if_pos h]
    obtain ⟨n, hn⟩ := Option.isSome_iff_exists.mp h
    obtain ⟨a, c, rfl⟩ := findTag_shape "body" doc n hn
    exact ⟨a, c, hn⟩
  · rw [if_neg h]
    exact ⟨[], doc, by simp [findTagL]⟩

/-- C7 counterexample: injecting with placement "head" into a document that
has no `html` element does not synthesize the missing wrapper — the call
fails (`soup.html` is `None` and `soup.html.insert` raises
`AttributeError`), contradicting the claim that any missing head/body/html
wrapper is synthesized as needed for every placement. -/
theorem C7_injection_head_counterexample :
    element [Node.text "x"] [Node.text "s"] "head" = none := by
  simp [element, ensureBody, findTagL, modifyTagL]

/-- C7 (amended): injection.element inserts the snippet at the requested
placement, synthesizing a missing body wrapper (always) and a missing head
wrapper when an html element is present; when the placement is the document
head and the document (after body synthesis) has neither a head nor an html
element, the call fails instead of synthesizing the html wrapper — only the
css variant synthesizes a missing html root, and it always succeeds.  In
particular "body-end" into "<html><body><p>x</p></body></html>" yields a
document whose body's last child is the snippet, and body placements into a
document lacking a body succeed by synthesizing the wrapper first. -/
theorem C7_injection_amended (doc snippet : List Node) (s : String) :
    (∃ doc2, element doc snippet "body-end" = some doc2 ∧
      ∃ a c, findTagL "body" (ensureBody doc) = some (Node.elem "body" a c) ∧
        findTagL "body" doc2 = some (Node.elem "body" a (c ++ snippet))) ∧
    (∃ doc2, element doc snippet "body-start" = some doc2 ∧
      ∃ a c, findTagL "body" (ensureBody doc) = some (Node.elem "body" a c) ∧
        findTagL "body" doc2 = some (Node.elem "body" a (snippet ++ c))) ∧
    ((hasTagL "head" (ensureBody doc) || hasTagL "html" (ensureBody doc)) = true →
      ∃ doc2, element doc snippet "head" = some doc2) ∧
    (∃ doc2, css doc s = some doc2) ∧
    element
        [Node.elem "html" [] [Node.elem "body" [] [Node.elem "p" [] [Node.text "x"]]]]
        [Node.elem "div" [] [Node.text "y"]] "body-end" =
      some [Node.elem "html" [] [Node.elem "body" []
        [Node.elem "p" [] [Node.text "x"], Node.elem "div" [] [Node.text "y"]]]] := by
  refine ⟨?_, ?_, ?_, ?_, ?_⟩
  · obtain ⟨a, c, hb⟩ := ensureBody_body doc
    obtain ⟨doc2, h1, h2⟩ := findTag_some_modify "body" (fun x => x ++ snippet)
      (ensureBody doc) a c hb
    refine ⟨doc2, ?_, a, c, hb, h2⟩
    simp [element, h1]
  · obtain ⟨a, c, hb⟩ := ensureBody_body doc
    obtain ⟨doc2, h1, h2⟩ := findTag_some_modify "body" (fun x => snippet ++ x)
      (ensureBody doc) a c hb
    refine ⟨doc2, ?_, a, c, hb, h2⟩
    simp [element, h1]
  · intro hor
    cases hfh : findTagL "head" (ensureBody doc) with
    | some n =>
        obtain ⟨a, c, rfl⟩ := findTag_shape _ _ _ hfh
        obtain ⟨doc2, h1, -⟩ := findTag_some_modify "head" (fun x => x ++ snippet)
          (ensureBody doc) a c hfh
        exact ⟨doc2, by simp [element, hfh, h1]⟩
    | none =>
        have hhead : hasTagL "head" (ensureBody doc) = false := by
          rw [← findTag_isSome_eq_hasTag, hfh]
          rfl
        have hfind : (findTagL "html" (ensureBody doc)).isSome = true := by
          rw [findTag_isSome_eq_hasTag]
          simpa [hhead] using hor
        obtain ⟨n, hn⟩ := Option.isSome_iff_exists.mp hfind
        obtain ⟨a, c, rfl⟩ := findTag_shape _ _ _ hn
        obtain ⟨doc3, h1, h2⟩ := findTag_some_modify "html"
          (fun cc => Node.elem "head" [] [] :: cc) (ensureBody doc) a c hn
        have hhead3 : hasTagL "head" doc3 = true :=
          hasTag_of_findTag_children "html" "head" doc3 a
            (Node.elem "head" [] [] :: c) h2 (by simp [hasTagL])
        have hfind3 : (findTagL "head" doc3).isSome = true := by
          rw [findTag_isSome_eq_hasTag]
          exact hhead3
        obtain ⟨m, hm⟩ := Option.isSome_iff_exists.mp hfind3
        obtain ⟨a2, c2, rfl⟩ := findTag_shape _ _ _ hm
        obtain ⟨doc4, h3, -⟩ := findTag_some_modify "head" (fun x => x ++ snippet)
          doc3 a2 c2 hm
        exact ⟨doc4, by simp [element, hfh, h1, h3]⟩
  · by_cases hfh : (findTagL "head" doc).isSome
    · obtain ⟨n, hn⟩ := Option.isSome_iff_exists.mp hfh
      obtain ⟨a, c, rfl⟩ := findTag_shape _ _ _ hn
      obtain ⟨doc2, h1, -⟩ := findTag_some_modify "head"
        (fun x => x ++ [Node.elem "style" [] [Node.text s]]) doc a c hn
      exact ⟨doc2, by simp [css, hfh, h1]⟩
    · by_cases hht : (findTagL "html" doc).isSome
      · obtain ⟨n, hn⟩ := Option.isSome_iff_exists.mp hht
        obtain ⟨a, c, rfl⟩ := findTag_shape _ _ _ hn
        obtain ⟨doc3, h1, h2⟩ := findTag_some_modify "html"
          (fun cc => Node.elem "head" [] [] :: cc) doc a c hn
        have hhead3 : hasTagL "head" doc3 = true :=
          hasTag_of_findTag_children "html" "head" doc3 a
            (Node.elem "head" [] [] :: c) h2 (by simp [hasTagL])
        have hfind3 : (findTagL "head" doc3).isSome = true := by
          rw [findTag_isSome_eq_hasTag]
          exact hhead3
        obtain ⟨m, hm⟩ := Option.isSome_iff_exists.mp hfind3
        obtain ⟨a2, c2, rfl⟩ := findTag_shape _ _ _ hm
        obtain ⟨doc4, h3, -⟩ := findTag_some_modify "head"
          (fun x => x ++ [Node.elem "style" [] [Node.text s]]) doc3 a2 c2 hm
        exact ⟨doc4, by simp [css, hfh, hht, h1, h3]⟩
      · have h1 : modifyTagL "html" (fun cc => Node.elem "head" [] [] :: cc)
            [Node.elem "html" [] doc] =
            some [Node.elem "html" [] (Node.elem "head" [] [] :: doc)] := by
          simp [modifyTagL]
        have hm : findTagL "head"
            [Node.elem "html" [] (Node.elem "head" [] [] :: doc)] =
            some (Node.elem "head" [] []) := by
          simp [findTagL]
        obtain ⟨doc4, h3, -⟩ := findTag_some_modify "head"
          (fun x => x ++ [Node.elem "style" [] [Node.text s]]) _ [] [] hm
        exact ⟨doc4, by simp [css, hfh, hht, h1, h3]⟩
  · simp [element, ensureBody, findTagL, modifyTagL]

/-- Witness for C7 (amended) at a concrete input: a document consisting of a
bare `html` element — the head placement synthesizes the head and succeeds. -/
theorem C7_injection_amended_witness :
    (hasTagL "head" (ensureBody [Node.elem "html" [] []]) ||
        hasTagL "html" (ensureBody [Node.elem "html" [] []])) = true ∧
      ∃ doc2, element [Node.elem "html" [] []] [Node.text "s"] "head" = some doc2 :=
  ⟨by simp [ensureBody, findTagL, hasTagL],
   (C7_injection_amended [Node.elem "html" [] []] [Node.text "s"] "x").2.2.1
     (by simp [ensureBody, findTagL, hasTagL])⟩
